import Mathlib

/-!
Shallow embedding of the `transaction-processor` crate of the
`payments-engine` repository (files `src/crates/transaction-processor/src/
transaction.rs` and `src/crates/transaction-processor/src/engine.rs`).

Modelling decisions:
* `rust_decimal::Decimal` amounts are modelled as `Int` (exact values; the
  spec mandates exact fixed-point arithmetic with no rounding, and none of
  the verified properties depends on the decimal scale or the 96-bit range).
* client ids (`u16`) and transaction ids (`u32`) are modelled as `Nat`;
  no arithmetic is performed on them, only equality tests.
* the two `HashMap`s of `TransactionEngine` are modelled as functions
  `Nat → Option _`; `entry(..).or_insert_with`, `insert`, `get`, `get_mut`
  become pointwise updates and lookups.
* every `process_*` method mutates `self` in place and returns
  `Result<()>`; here each returns `Except Err Unit × Engine`, the second
  component being the engine state after the call.  This keeps the partial
  mutations the Rust code performs on some error paths (e.g. the `disputed`
  flag already toggled when `process_dispute` fails with `Account not
  found`, and the account lazily created by `entry` before a rejection).
-/

/-- Rejection reasons, one per `bail!`/`anyhow!` message in the source. -/
inductive Err where
  | missingAmount       -- "Deposit requires amount" / "Withdrawal requires amount"
  | accountLocked       -- "Account is locked"
  | duplicateTx         -- "Duplicate transaction ID"
  | insufficientFunds   -- "Insufficient funds"
  | txNotFound          -- "Transaction not found"
  | clientMismatch      -- "Transaction belongs to different client"
  | alreadyDisputed     -- "Transaction already disputed"
  | notDisputed         -- "Transaction not under dispute"
  | accountNotFound     -- "Account not found"
  deriving DecidableEq, Repr

/-- `TransactionType` from `transaction.rs`. -/
inductive TransactionType where
  | deposit
  | withdrawal
  | dispute
  | resolve
  | chargeback
  deriving DecidableEq, Repr

/-- `Transaction` record from `transaction.rs` (fields in source order). -/
structure Transaction where
  amount : Option Int
  tx : Nat
  client : Nat
  tx_type : TransactionType
  deriving DecidableEq, Repr

/-- `Account` from `transaction.rs`: `available`, `held`, `total`, `locked`. -/
structure Account where
  available : Int
  held : Int
  total : Int
  locked : Bool
  deriving DecidableEq, Repr

/-- `Account::new` / `Account::default`: all balances zero, unlocked. -/
def Account.new : Account :=
  { available := 0, held := 0, total := 0, locked := false }

/-- `Account::deposit`: `available += amount; total += amount`. -/
def Account.deposit (a : Account) (amount : Int) : Account :=
  { a with available := a.available + amount, total := a.total + amount }

/-- `Account::withdraw`: succeeds iff `available >= amount`, then
`available -= amount; total -= amount`; otherwise `Insufficient funds`. -/
def Account.withdraw (a : Account) (amount : Int) : Except Err Account :=
  if a.available ≥ amount then
    .ok { a with available := a.available - amount, total := a.total - amount }
  else
    .error .insufficientFunds

/-- `Account::dispute`: `available -= amount; held += amount`. -/
def Account.dispute (a : Account) (amount : Int) : Account :=
  { a with available := a.available - amount, held := a.held + amount }

/-- `Account::resolve`: `held -= amount; available += amount`. -/
def Account.resolve (a : Account) (amount : Int) : Account :=
  { a with held := a.held - amount, available := a.available + amount }

/-- `Account::chargeback`: `held -= amount; total -= amount; locked = true`. -/
def Account.chargeback (a : Account) (amount : Int) : Account :=
  { a with held := a.held - amount, total := a.total - amount, locked := true }

/-- `StoredTransaction` from `engine.rs`: amount, owning client, dispute flag. -/
structure StoredTransaction where
  amount : Int
  client : Nat
  disputed : Bool
  deriving DecidableEq, Repr

/-- `TransactionEngine`: the two `HashMap`s, as functions. -/
structure Engine where
  accounts : Nat → Option Account
  transactions : Nat → Option StoredTransaction

/-- `HashMap::insert` on the accounts map (also the effect of
`entry(..).or_insert_with(..)` once the value to sit at the key is known). -/
def updAccounts (m : Nat → Option Account) (k : Nat) (v : Account) :
    Nat → Option Account :=
  fun k2 => if k2 = k then some v else m k2

/-- `HashMap::insert` on the stored-transactions map. -/
def updTransactions (m : Nat → Option StoredTransaction) (k : Nat)
    (v : StoredTransaction) : Nat → Option StoredTransaction :=
  fun k2 => if k2 = k then some v else m k2

/-- `TransactionEngine::new` — both maps empty. -/
def Engine.new : Engine :=
  { accounts := fun _ => none, transactions := fun _ => none }

/-- `TransactionEngine::process_deposit`.  Order of operations as in the
source: amount check, `entry(..).or_insert_with` (lazy account creation),
locked check, duplicate-id check, `account.deposit`, store the record. -/
def processDeposit (e : Engine) (t : Transaction) : Except Err Unit × Engine :=
  match t.amount with
  | none => (.error .missingAmount, e)
  | some amount =>
    let account := (e.accounts t.client).getD Account.new
    let e1 : Engine := { e with accounts := updAccounts e.accounts t.client account }
    if account.locked then
      (.error .accountLocked, e1)
    else if (e1.transactions t.tx).isSome then
      (.error .duplicateTx, e1)
    else
      (.ok (), { e1 with
        accounts := updAccounts e1.accounts t.client (account.deposit amount),
        transactions := updTransactions e1.transactions t.tx
          { client := t.client, amount := amount, disputed := false } })

/-- `TransactionEngine::process_withdrawal`.  Same shape as deposit with the
`account.withdraw` fallible step. -/
def processWithdrawal (e : Engine) (t : Transaction) : Except Err Unit × Engine :=
  match t.amount with
  | none => (.error .missingAmount, e)
  | some amount =>
    let account := (e.accounts t.client).getD Account.new
    let e1 : Engine := { e with accounts := updAccounts e.accounts t.client account }
    if account.locked then
      (.error .accountLocked, e1)
    else if (e1.transactions t.tx).isSome then
      (.error .duplicateTx, e1)
    else
      match account.withdraw amount with
      | .error err => (.error err, e1)
      | .ok account2 =>
        (.ok (), { e1 with
          accounts := updAccounts e1.accounts t.client account2,
          transactions := updTransactions e1.transactions t.tx
            { client := t.client, amount := amount, disputed := false } })

/-- `TransactionEngine::process_dispute`.  Note the source sets
`stored.disputed = true` *before* the account lookup, so the
`Account not found` error path leaves the flag mutated. -/
def processDispute (e : Engine) (t : Transaction) : Except Err Unit × Engine :=
  match e.transactions t.tx with
  | none => (.error .txNotFound, e)
  | some stored =>
    if stored.client ≠ t.client then
      (.error .clientMismatch, e)
    else if stored.disputed then
      (.error .alreadyDisputed, e)
    else
      let trans1 := updTransactions e.transactions t.tx { stored with disputed := true }
      let e1 : Engine := { e with transactions := trans1 }
      match e1.accounts t.client with
      | none => (.error .accountNotFound, e1)
      | some account =>
        let acc1 := updAccounts e1.accounts t.client (account.dispute stored.amount)
        (.ok (), { e1 with accounts := acc1 })

/-- `TransactionEngine::process_resolve`.  Mirror image of dispute:
requires `disputed`, clears the flag (again before the account lookup). -/
def processResolve (e : Engine) (t : Transaction) : Except Err Unit × Engine :=
  match e.transactions t.tx with
  | none => (.error .txNotFound, e)
  | some stored =>
    if stored.client ≠ t.client then
      (.error .clientMismatch, e)
    else if !stored.disputed then
      (.error .notDisputed, e)
    else
      let trans1 := updTransactions e.transactions t.tx { stored with disputed := false }
      let e1 : Engine := { e with transactions := trans1 }
      match e1.accounts t.client with
      | none => (.error .accountNotFound, e1)
      | some account =>
        let acc1 := updAccounts e1.accounts t.client (account.resolve stored.amount)
        (.ok (), { e1 with accounts := acc1 })

/-- `TransactionEngine::process_chargeback`.  Uses an immutable `get`, so no
state is touched before the account lookup, and the `disputed` flag of the
stored record is never cleared. -/
def processChargeback (e : Engine) (t : Transaction) : Except Err Unit × Engine :=
  match e.transactions t.tx with
  | none => (.error .txNotFound, e)
  | some stored =>
    if stored.client ≠ t.client then
      (.error .clientMismatch, e)
    else if !stored.disputed then
      (.error .notDisputed, e)
    else
      match e.accounts t.client with
      | none => (.error .accountNotFound, e)
      | some account =>
        let acc1 := updAccounts e.accounts t.client (account.chargeback stored.amount)
        (.ok (), { e with accounts := acc1 })

/-- `TransactionEngine::process`: dispatch on the transaction type. -/
def process (e : Engine) (t : Transaction) : Except Err Unit × Engine :=
  match t.tx_type with
  | .deposit => processDeposit e t
  | .withdrawal => processWithdrawal e t
  | .dispute => processDispute e t
  | .resolve => processResolve e t
  | .chargeback => processChargeback e t

/-- One step of the replay loop: the engine state after `process`
(the caller logs the `Result` and continues). -/
def run1 (e : Engine) (t : Transaction) : Engine :=
  (process e t).2

/-- Replay of a whole input sequence, in order, from a given state. -/
def runTxs (e : Engine) (ts : List Transaction) : Engine :=
  ts.foldl run1 e

/-- A state is reachable when some input sequence replayed on a fresh
engine produces it. -/
def Reachable (e : Engine) : Prop :=
  ∃ ts : List Transaction, runTxs Engine.new ts = e

/-- `true` iff `process` rejected the transaction. -/
def isErr (r : Except Err Unit) : Bool :=
  match r with
  | .error _ => true
  | .ok _ => false

/-- The account-side invariant of §3 of the spec:
`total == available + held` for every account in the map. -/
def AccInv (e : Engine) : Prop :=
  ∀ c a, e.accounts c = some a → a.total = a.available + a.held

/-- Referential integrity: every stored monetary transaction's owning
client already has an account. -/
def TxInv (e : Engine) : Prop :=
  ∀ k s, e.transactions k = some s → (e.accounts s.client).isSome = true

/-- The rejection condition the spec states for a dispute: unknown
identifier, owning-client mismatch, or already under dispute. -/
def disputeRejects (e : Engine) (t : Transaction) : Bool :=
  match e.transactions t.tx with
  | none => true
  | some s => decide (s.client ≠ t.client) || s.disputed

/-- `true` iff the client currently has an account and it is locked. -/
def lockedAt (e : Engine) (c : Nat) : Bool :=
  match e.accounts c with
  | some a => a.locked
  | none => false

/-- `available >= 0` for every account in the map (§3 of the spec). -/
def AvailInv (e : Engine) : Prop :=
  ∀ c a, e.accounts c = some a → 0 ≤ a.available

/- Concrete transaction builders used by witnesses and counterexamples. -/

/-- A deposit record for client `c`, id `k`, amount `x`. -/
def dep (c k : Nat) (x : Int) : Transaction :=
  { amount := some x, tx := k, client := c, tx_type := .deposit }

/-- A withdrawal record for client `c`, id `k`, amount `x`. -/
def wd (c k : Nat) (x : Int) : Transaction :=
  { amount := some x, tx := k, client := c, tx_type := .withdrawal }

/-- A dispute record for client `c` referencing id `k`. -/
def dsp (c k : Nat) : Transaction :=
  { amount := none, tx := k, client := c, tx_type := .dispute }

/-- A resolve record for client `c` referencing id `k`. -/
def rsv (c k : Nat) : Transaction :=
  { amount := none, tx := k, client := c, tx_type := .resolve }

/-- A chargeback record for client `c` referencing id `k`. -/
def cb (c k : Nat) : Transaction :=
  { amount := none, tx := k, client := c, tx_type := .chargeback }

/- ## Pointwise lemmas about the map updates -/

lemma updAccounts_self (m : Nat → Option Account) (k : Nat) (v : Account) :
    updAccounts m k v k = some v := by
  simp [updAccounts]

lemma updAccounts_other (m : Nat → Option Account) (k : Nat) (v : Account)
    (c : Nat) (h : c ≠ k) : updAccounts m k v c = m c := by
  simp [updAccounts, h]

lemma updAccounts_isSome (m : Nat → Option Account) (k : Nat) (v : Account)
    (c : Nat) (h : (m c).isSome = true) :
    (updAccounts m k v c).isSome = true := by
  by_cases hc : c = k <;> simp [updAccounts, hc, h]

lemma updTransactions_self (m : Nat → Option StoredTransaction) (k : Nat)
    (v : StoredTransaction) : updTransactions m k v k = some v := by
  simp [updTransactions]

lemma updTransactions_other (m : Nat → Option StoredTransaction) (k : Nat)
    (v : StoredTransaction) (c : Nat) (h : c ≠ k) :
    updTransactions m k v c = m c := by
  simp [updTransactions, h]

/- ## Preservation of `total = available + held` (claim C1) -/

lemma accInv_empty : AccInv Engine.new := by
  intro c a h
  simp [Engine.new] at h

/-- Updating the accounts map with a balanced account preserves the
per-account balance equation. -/
lemma accInv_after_upd {m : Nat → Option Account} {k : Nat} {v : Account}
    (hm : ∀ c a, m c = some a → a.total = a.available + a.held)
    (hv : v.total = v.available + v.held) :
    ∀ c a, updAccounts m k v c = some a → a.total = a.available + a.held := by
  intro c a hca
  by_cases hc : c = k
  · subst hc
    rw [updAccounts_self] at hca
    cases hca
    exact hv
  · rw [updAccounts_other _ _ _ _ hc] at hca
    exact hm c a hca

lemma total_deposit (a : Account) (x : Int)
    (h : a.total = a.available + a.held) :
    (a.deposit x).total = (a.deposit x).available + (a.deposit x).held := by
  simp only [Account.deposit]
  omega

lemma total_withdraw_ok (a : Account) (x : Int) (a2 : Account)
    (hw : a.withdraw x = .ok a2) (h : a.total = a.available + a.held) :
    a2.total = a2.available + a2.held := by
  unfold Account.withdraw at hw
  split at hw
  · simp only [Except.ok.injEq] at hw
    subst hw
    simp only
    omega
  · cases hw

lemma total_dispute (a : Account) (x : Int)
    (h : a.total = a.available + a.held) :
    (a.dispute x).total = (a.dispute x).available + (a.dispute x).held := by
  simp only [Account.dispute]
  omega

lemma total_resolve (a : Account) (x : Int)
    (h : a.total = a.available + a.held) :
    (a.resolve x).total = (a.resolve x).available + (a.resolve x).held := by
  simp only [Account.resolve]
  omega

lemma total_chargeback (a : Account) (x : Int)
    (h : a.total = a.available + a.held) :
    (a.chargeback x).total = (a.chargeback x).available + (a.chargeback x).held := by
  simp only [Account.chargeback]
  omega

lemma accInv_run1 (e : Engine) (t : Transaction) (h : AccInv e) :
    AccInv (run1 e t) := by
  have hgetD : ∀ c : Nat, ((e.accounts c).getD Account.new).total =
      ((e.accounts c).getD Account.new).available + ((e.accounts c).getD Account.new).held := by
    intro c
    cases hc : e.accounts c with
    | none => simp [Account.new]
    | some a => simpa using h c a hc
  unfold run1 process
  cases t.tx_type
  case deposit =>
    unfold processDeposit
    cases ht : t.amount with
    | none => exact h
    | some x =>
      dsimp only
      split
      · exact fun c a hca => accInv_after_upd h (hgetD t.client) c a hca
      · split
        · exact fun c a hca => accInv_after_upd h (hgetD t.client) c a hca
        · exact fun c a hca =>
            accInv_after_upd (accInv_after_upd h (hgetD t.client))
              (total_deposit _ x (hgetD t.client)) c a hca
  case withdrawal =>
    unfold processWithdrawal
    cases ht : t.amount with
    | none => exact h
    | some x =>
      dsimp only
      split
      · exact fun c a hca => accInv_after_upd h (hgetD t.client) c a hca
      · split
        · exact fun c a hca => accInv_after_upd h (hgetD t.client) c a hca
        · split
          · exact fun c a hca => accInv_after_upd h (hgetD t.client) c a hca
          · rename_i a2 hw
            exact fun c a hca =>
              accInv_after_upd (accInv_after_upd h (hgetD t.client))
                (total_withdraw_ok _ x a2 hw (hgetD t.client)) c a hca
  case dispute =>
    unfold processDispute
    cases ht : e.transactions t.tx with
    | none => exact h
    | some stored =>
      dsimp only
      split
      · exact h
      · split
        · exact h
        · split
          · exact h
          · rename_i account hacc
            exact fun c a hca =>
              accInv_after_upd h (total_dispute account stored.amount (h _ account hacc)) c a hca
  case resolve =>
    unfold processResolve
    cases ht : e.transactions t.tx with
    | none => exact h
    | some stored =>
      dsimp only
      split
      · exact h
      · split
        · exact h
        · split
          · exact h
          · rename_i account hacc
            exact fun c a hca =>
              accInv_after_upd h (total_resolve account stored.amount (h _ account hacc)) c a hca
  case chargeback =>
    unfold processChargeback
    cases ht : e.transactions t.tx with
    | none => exact h
    | some stored =>
      dsimp only
      split
      · exact h
      · split
        · exact h
        · split
          · exact h
          · rename_i account hacc
            exact fun c a hca =>
              accInv_after_upd h (total_chargeback account stored.amount (h _ account hacc)) c a hca

lemma accInv_runTxs (ts : List Transaction) (e : Engine) (h : AccInv e) :
    AccInv (runTxs e ts) := by
  induction ts generalizing e with
  | nil => exact h
  | cons t ts ih => exact ih (run1 e t) (accInv_run1 e t h)

/- ## Referential integrity: stored transactions point at existing accounts -/

lemma txMapInv_upd_trans {A : Nat → Option Account} {T : Nat → Option StoredTransaction}
    (h : ∀ k s, T k = some s → (A s.client).isSome = true)
    (k0 : Nat) (v : StoredTransaction) (hv : (A v.client).isSome = true) :
    ∀ k s, updTransactions T k0 v k = some s → (A s.client).isSome = true := by
  intro k s hk
  by_cases hkk : k = k0
  · subst hkk
    rw [updTransactions_self] at hk
    cases hk
    exact hv
  · rw [updTransactions_other _ _ _ _ hkk] at hk
    exact h k s hk

lemma txMapInv_upd_acc {A : Nat → Option Account} {T : Nat → Option StoredTransaction}
    (h : ∀ k s, T k = some s → (A s.client).isSome = true) (k0 : Nat) (v : Account) :
    ∀ k s, T k = some s → (updAccounts A k0 v s.client).isSome = true :=
  fun k s hk => updAccounts_isSome _ _ _ _ (h k s hk)

lemma txInv_empty : TxInv Engine.new := by
  intro k s h
  simp [Engine.new] at h

lemma txInv_run1 (e : Engine) (t : Transaction) (h : TxInv e) :
    TxInv (run1 e t) := by
  unfold run1 process
  cases t.tx_type
  case deposit =>
    unfold processDeposit
    cases ht : t.amount with
    | none => exact h
    | some x =>
      dsimp only
      split
      · exact txMapInv_upd_acc h t.client _
      · split
        · exact txMapInv_upd_acc h t.client _
        · refine txMapInv_upd_trans (txMapInv_upd_acc (txMapInv_upd_acc h t.client _) t.client _)
            t.tx { amount := x, client := t.client, disputed := false } ?_
          simp [updAccounts]
  case withdrawal =>
    unfold processWithdrawal
    cases ht : t.amount with
    | none => exact h
    | some x =>
      dsimp only
      split
      · exact txMapInv_upd_acc h t.client _
      · split
        · exact txMapInv_upd_acc h t.client _
        · split
          · exact txMapInv_upd_acc h t.client _
          · refine txMapInv_upd_trans (txMapInv_upd_acc (txMapInv_upd_acc h t.client _) t.client _)
              t.tx { amount := x, client := t.client, disputed := false } ?_
            simp [updAccounts]
  case dispute =>
    unfold processDispute
    cases ht : e.transactions t.tx with
    | none => exact h
    | some stored =>
      dsimp only
      split
      · exact h
      · split
        · exact h
        · split
          · exact txMapInv_upd_trans h t.tx { stored with disputed := true } (h t.tx stored ht)
          · rename_i account hacc
            exact txMapInv_upd_acc
              (txMapInv_upd_trans h t.tx { stored with disputed := true } (h t.tx stored ht))
              t.client _
  case resolve =>
    unfold processResolve
    cases ht : e.transactions t.tx with
    | none => exact h
    | some stored =>
      dsimp only
      split
      · exact h
      · split
        · exact h
        · split
          · exact txMapInv_upd_trans h t.tx { stored with disputed := false } (h t.tx stored ht)
          · rename_i account hacc
            exact txMapInv_upd_acc
              (txMapInv_upd_trans h t.tx { stored with disputed := false } (h t.tx stored ht))
              t.client _
  case chargeback =>
    unfold processChargeback
    cases ht : e.transactions t.tx with
    | none => exact h
    | some stored =>
      dsimp only
      split
      · exact h
      · split
        · exact h
        · split
          · exact h
          · rename_i account hacc
            exact txMapInv_upd_acc h t.client _

lemma txInv_runTxs (ts : List Transaction) (e : Engine) (h : TxInv e) :
    TxInv (runTxs e ts) := by
  induction ts generalizing e with
  | nil => exact h
  | cons t ts ih => exact ih (run1 e t) (txInv_run1 e t h)

lemma txInv_of_reachable (e : Engine) (h : Reachable e) : TxInv e := by
  obtain ⟨ts, hts⟩ := h
  rw [← hts]
  exact txInv_runTxs ts Engine.new txInv_empty

/- ## Frame lemmas: keys other than the transaction's are never touched -/

lemma run1_accounts_other (e : Engine) (t : Transaction) (c : Nat)
    (hc : c ≠ t.client) : (run1 e t).accounts c = e.accounts c := by
  unfold run1 process
  cases t.tx_type
  case deposit =>
    unfold processDeposit
    cases t.amount with
    | none => rfl
    | some x =>
      dsimp only
      repeat' split
      all_goals simp [updAccounts, hc]
  case withdrawal =>
    unfold processWithdrawal
    cases t.amount with
    | none => rfl
    | some x =>
      dsimp only
      repeat' split
      all_goals simp [updAccounts, hc]
  case dispute =>
    unfold processDispute
    cases e.transactions t.tx with
    | none => rfl
    | some stored =>
      dsimp only
      repeat' split
      all_goals simp [updAccounts, hc]
  case resolve =>
    unfold processResolve
    cases e.transactions t.tx with
    | none => rfl
    | some stored =>
      dsimp only
      repeat' split
      all_goals simp [updAccounts, hc]
  case chargeback =>
    unfold processChargeback
    cases e.transactions t.tx with
    | none => rfl
    | some stored =>
      dsimp only
      repeat' split
      all_goals simp [updAccounts, hc]

lemma run1_transactions_other (e : Engine) (t : Transaction) (k : Nat)
    (hk : k ≠ t.tx) : (run1 e t).transactions k = e.transactions k := by
  unfold run1 process
  cases t.tx_type
  case deposit =>
    unfold processDeposit
    cases t.amount with
    | none => rfl
    | some x =>
      dsimp only
      repeat' split
      all_goals simp [updTransactions, hk]
  case withdrawal =>
    unfold processWithdrawal
    cases t.amount with
    | none => rfl
    | some x =>
      dsimp only
      repeat' split
      all_goals simp [updTransactions, hk]
  case dispute =>
    unfold processDispute
    cases e.transactions t.tx with
    | none => rfl
    | some stored =>
      dsimp only
      repeat' split
      all_goals simp [updTransactions, hk]
  case resolve =>
    unfold processResolve
    cases e.transactions t.tx with
    | none => rfl
    | some stored =>
      dsimp only
      repeat' split
      all_goals simp [updTransactions, hk]
  case chargeback =>
    unfold processChargeback
    cases e.transactions t.tx with
    | none => rfl
    | some stored =>
      dsimp only
      repeat' split
      all_goals simp [updTransactions, hk]

/- ## The locked flag is never cleared (claim C6) -/

lemma locked_run1_self (e : Engine) (t : Transaction) (a : Account)
    (hac : e.accounts t.client = some a) (hl : a.locked = true) :
    lockedAt (run1 e t) t.client = true := by
  have hacct : (e.accounts t.client).getD Account.new = a := by rw [hac]; rfl
  unfold run1 process
  cases t.tx_type
  case deposit =>
    unfold processDeposit
    cases t.amount with
    | none => simp [lockedAt, hac, hl]
    | some x => simp [lockedAt, updAccounts, hacct, hl]
  case withdrawal =>
    unfold processWithdrawal
    cases t.amount with
    | none => simp [lockedAt, hac, hl]
    | some x => simp [lockedAt, updAccounts, hacct, hl]
  case dispute =>
    unfold processDispute
    cases e.transactions t.tx with
    | none => simp [lockedAt, hac, hl]
    | some stored =>
      dsimp only
      split
      · simp [lockedAt, hac, hl]
      · split
        · simp [lockedAt, hac, hl]
        · simp [lockedAt, updAccounts, hac, Account.dispute, hl]
  case resolve =>
    unfold processResolve
    cases e.transactions t.tx with
    | none => simp [lockedAt, hac, hl]
    | some stored =>
      dsimp only
      split
      · simp [lockedAt, hac, hl]
      · split
        · simp [lockedAt, hac, hl]
        · simp [lockedAt, updAccounts, hac, Account.resolve, hl]
  case chargeback =>
    unfold processChargeback
    cases e.transactions t.tx with
    | none => simp [lockedAt, hac, hl]
    | some stored =>
      dsimp only
      split
      · simp [lockedAt, hac, hl]
      · split
        · simp [lockedAt, hac, hl]
        · simp [lockedAt, updAccounts, hac, Account.chargeback]

lemma locked_run1 (e : Engine) (t : Transaction) (c : Nat)
    (h : lockedAt e c = true) : lockedAt (run1 e t) c = true := by
  by_cases hc : c = t.client
  · subst hc
    unfold lockedAt at h
    cases hac : e.accounts t.client with
    | none => rw [hac] at h; cases h
    | some a =>
      rw [hac] at h
      exact locked_run1_self e t a hac h
  · unfold lockedAt
    rw [run1_accounts_other e t c hc]
    exact h

lemma locked_runTxs (ts : List Transaction) (e : Engine) (c : Nat)
    (h : lockedAt e c = true) : lockedAt (runTxs e ts) c = true := by
  induction ts generalizing e with
  | nil => exact h
  | cons t ts ih => exact ih (run1 e t) (locked_run1 e t c h)

lemma locked_rejects (e : Engine) (t : Transaction) (a : Account)
    (hac : e.accounts t.client = some a) (hl : a.locked = true)
    (hdw : t.tx_type = .deposit ∨ t.tx_type = .withdrawal) :
    isErr (process e t).1 = true := by
  have hacct : (e.accounts t.client).getD Account.new = a := by rw [hac]; rfl
  unfold process
  rcases hdw with hdw | hdw <;> rw [hdw]
  · unfold processDeposit
    cases t.amount with
    | none => rfl
    | some x => simp [isErr, hacct, hl]
  · unfold processWithdrawal
    cases t.amount with
    | none => rfl
    | some x => simp [isErr, hacct, hl]

/- ## `available >= 0` under deposits/withdrawals with nonnegative deposit amounts -/

lemma availInv_after_upd {m : Nat → Option Account} {k : Nat} {v : Account}
    (hm : ∀ c a, m c = some a → 0 ≤ a.available) (hv : 0 ≤ v.available) :
    ∀ c a, updAccounts m k v c = some a → 0 ≤ a.available := by
  intro c a hca
  by_cases hc : c = k
  · subst hc
    rw [updAccounts_self] at hca
    cases hca
    exact hv
  · rw [updAccounts_other _ _ _ _ hc] at hca
    exact hm c a hca

lemma availInv_run1 (e : Engine) (t : Transaction) (h : AvailInv e)
    (hdw : t.tx_type = .deposit ∨ t.tx_type = .withdrawal)
    (hpos : ∀ x, t.amount = some x → t.tx_type = .deposit → 0 ≤ x) :
    AvailInv (run1 e t) := by
  have hgetD : ∀ c : Nat, 0 ≤ ((e.accounts c).getD Account.new).available := by
    intro c
    cases hc : e.accounts c with
    | none => simp [Account.new]
    | some a => simpa using h c a hc
  unfold run1 process
  rcases hdw with hd | hw
  · rw [hd]
    unfold processDeposit
    cases ht : t.amount with
    | none => exact h
    | some x =>
      have hx : 0 ≤ x := hpos x ht hd
      dsimp only
      split
      · exact fun c a hca => availInv_after_upd h (hgetD t.client) c a hca
      · split
        · exact fun c a hca => availInv_after_upd h (hgetD t.client) c a hca
        · refine fun c a hca => availInv_after_upd
            (availInv_after_upd h (hgetD t.client)) ?_ c a hca
          have := hgetD t.client
          simp only [Account.deposit]
          omega
  · rw [hw]
    unfold processWithdrawal
    cases ht : t.amount with
    | none => exact h
    | some x =>
      dsimp only
      split
      · exact fun c a hca => availInv_after_upd h (hgetD t.client) c a hca
      · split
        · exact fun c a hca => availInv_after_upd h (hgetD t.client) c a hca
        · split
          · exact fun c a hca => availInv_after_upd h (hgetD t.client) c a hca
          · rename_i a2 hw2
            refine fun c a hca => availInv_after_upd
              (availInv_after_upd h (hgetD t.client)) ?_ c a hca
            unfold Account.withdraw at hw2
            split at hw2
            · simp only [Except.ok.injEq] at hw2
              subst hw2
              rename_i hge
              simp only
              omega
            · cases hw2

lemma availInv_runTxs (ts : List Transaction) (e : Engine) (h : AvailInv e)
    (hdw : ∀ t ∈ ts, t.tx_type = .deposit ∨ t.tx_type = .withdrawal)
    (hpos : ∀ t ∈ ts, ∀ x, t.amount = some x → t.tx_type = .deposit → 0 ≤ x) :
    AvailInv (runTxs e ts) := by
  induction ts generalizing e with
  | nil => exact h
  | cons t ts ih =>
    refine ih (run1 e t)
      (availInv_run1 e t h (hdw t (by simp)) (fun x hx hd => hpos t (by simp) x hx hd))
      (fun u hu => hdw u (by simp [hu])) (fun u hu => hpos u (by simp [hu]))

/- ## Rejections leave the state intact, up to lazy account creation -/

lemma lazy_create_case (m : Nat → Option Account) (k : Nat) :
    updAccounts m k ((m k).getD Account.new) k = m k ∨
    (m k = none ∧ updAccounts m k ((m k).getD Account.new) k = some Account.new) := by
  cases h : m k with
  | none =>
    right
    refine ⟨rfl, ?_⟩
    rw [updAccounts_self]
    simp [h]
  | some a =>
    left
    rw [updAccounts_self]
    simp [h]
/-- What a rejected transaction can do to the state, given referential
integrity: the stored-transactions map is untouched, accounts of other
clients are untouched, and the transaction's client either keeps its
account unchanged or gains a fresh default one. -/
lemma err_frame (e : Engine) (t : Transaction) (err : Err)
    (hTx : TxInv e) (herr : (process e t).1 = .error err) (k c : Nat) :
    ((process e t).2.transactions k = e.transactions k) ∧
    (c ≠ t.client → (process e t).2.accounts c = e.accounts c) ∧
    ((process e t).2.accounts t.client = e.accounts t.client ∨
      (e.accounts t.client = none ∧
        (process e t).2.accounts t.client = some Account.new)) := by
  unfold process at herr ⊢
  cases htt : t.tx_type
  all_goals rw [htt] at herr
  all_goals dsimp only at herr ⊢
  case deposit =>
    unfold processDeposit at herr ⊢
    cases ht : t.amount with
    | none => exact ⟨rfl, fun _ => rfl, Or.inl rfl⟩
    | some x =>
      rw [ht] at herr
      dsimp only at herr ⊢
      by_cases hl : ((e.accounts t.client).getD Account.new).locked = true
      · rw [if_pos hl] at herr ⊢
        exact ⟨rfl, fun hcx => updAccounts_other _ _ _ _ hcx,
          lazy_create_case e.accounts t.client⟩
      · rw [if_neg hl] at herr ⊢
        by_cases hdup : (e.transactions t.tx).isSome = true
        · rw [if_pos hdup] at herr ⊢
          exact ⟨rfl, fun hcx => updAccounts_other _ _ _ _ hcx,
            lazy_create_case e.accounts t.client⟩
        · rw [if_neg hdup] at herr
          simp at herr
  case withdrawal =>
    unfold processWithdrawal at herr ⊢
    cases ht : t.amount with
    | none => exact ⟨rfl, fun _ => rfl, Or.inl rfl⟩
    | some x =>
      rw [ht] at herr
      dsimp only at herr ⊢
      by_cases hl : ((e.accounts t.client).getD Account.new).locked = true
      · rw [if_pos hl] at herr ⊢
        exact ⟨rfl, fun hcx => updAccounts_other _ _ _ _ hcx,
          lazy_create_case e.accounts t.client⟩
      · rw [if_neg hl] at herr ⊢
        by_cases hdup : (e.transactions t.tx).isSome = true
        · rw [if_pos hdup] at herr ⊢
          exact ⟨rfl, fun hcx => updAccounts_other _ _ _ _ hcx,
            lazy_create_case e.accounts t.client⟩
        · rw [if_neg hdup] at herr ⊢
          cases hw : ((e.accounts t.client).getD Account.new).withdraw x with
          | error e2 =>
            exact ⟨rfl, fun hcx => updAccounts_other _ _ _ _ hcx,
              lazy_create_case e.accounts t.client⟩
          | ok a2 =>
            rw [hw] at herr
            simp at herr
  case dispute =>
    unfold processDispute at herr ⊢
    cases ht : e.transactions t.tx with
    | none => exact ⟨rfl, fun _ => rfl, Or.inl rfl⟩
    | some stored =>
      rw [ht] at herr
      dsimp only at herr ⊢
      by_cases hnm : stored.client ≠ t.client
      · rw [if_pos hnm] at herr ⊢
        exact ⟨rfl, fun _ => rfl, Or.inl rfl⟩
      · rw [if_neg hnm] at herr ⊢
        by_cases hd : stored.disputed = true
        · rw [if_pos hd] at herr ⊢
          exact ⟨rfl, fun _ => rfl, Or.inl rfl⟩
        · rw [if_neg hd] at herr ⊢
          cases hacc : e.accounts t.client with
          | none =>
            have hsome := hTx t.tx stored ht
            rw [not_not.mp hnm, hacc] at hsome
            cases hsome
          | some account =>
            rw [hacc] at herr
            simp at herr
  case resolve =>
    unfold processResolve at herr ⊢
    cases ht : e.transactions t.tx with
    | none => exact ⟨rfl, fun _ => rfl, Or.inl rfl⟩
    | some stored =>
      rw [ht] at herr
      dsimp only at herr ⊢
      by_cases hnm : stored.client ≠ t.client
      · rw [if_pos hnm] at herr ⊢
        exact ⟨rfl, fun _ => rfl, Or.inl rfl⟩
      · rw [if_neg hnm] at herr ⊢
        by_cases hd : (!stored.disputed) = true
        · rw [if_pos hd] at herr ⊢
          exact ⟨rfl, fun _ => rfl, Or.inl rfl⟩
        · rw [if_neg hd] at herr ⊢
          cases hacc : e.accounts t.client with
          | none =>
            have hsome := hTx t.tx stored ht
            rw [not_not.mp hnm, hacc] at hsome
            cases hsome
          | some account =>
            rw [hacc] at herr
            simp at herr
  case chargeback =>
    unfold processChargeback at herr ⊢
    cases ht : e.transactions t.tx with
    | none => exact ⟨rfl, fun _ => rfl, Or.inl rfl⟩
    | some stored =>
      rw [ht] at herr
      dsimp only at herr ⊢
      by_cases hnm : stored.client ≠ t.client
      · rw [if_pos hnm] at herr ⊢
        exact ⟨rfl, fun _ => rfl, Or.inl rfl⟩
      · rw [if_neg hnm] at herr ⊢
        by_cases hd : (!stored.disputed) = true
        · rw [if_pos hd] at herr ⊢
          exact ⟨rfl, fun _ => rfl, Or.inl rfl⟩
        · rw [if_neg hd] at herr ⊢
          cases hacc : e.accounts t.client with
          | none =>
            exact ⟨rfl, fun _ => rfl, Or.inl hacc⟩
          | some account =>
            rw [hacc] at herr
            simp at herr

/- ## Effects of successful dispute / resolve / chargeback -/

lemma dispute_ok_effect (e : Engine) (t : Transaction) (s : StoredTransaction)
    (a : Account) (hs : e.transactions t.tx = some s) (hc : s.client = t.client)
    (hd : s.disputed = false) (ha : e.accounts t.client = some a) :
    (processDispute e t).1 = .ok () ∧
    (processDispute e t).2.accounts t.client = some (a.dispute s.amount) ∧
    (processDispute e t).2.transactions t.tx = some { s with disputed := true } ∧
    (∀ c2, c2 ≠ t.client → (processDispute e t).2.accounts c2 = e.accounts c2) ∧
    (∀ k2, k2 ≠ t.tx → (processDispute e t).2.transactions k2 = e.transactions k2) := by
  unfold processDispute
  rw [hs]
  dsimp only
  rw [if_neg (by simp [hc]), if_neg (by simp [hd])]
  rw [ha]
  dsimp only
  refine ⟨rfl, ?_, ?_, ?_, ?_⟩
  · rw [updAccounts_self]
  · exact updTransactions_self _ _ _
  · exact fun c2 hc2 => updAccounts_other _ _ _ _ hc2
  · exact fun k2 hk2 => updTransactions_other _ _ _ _ hk2

lemma resolve_ok_effect (e : Engine) (t : Transaction) (s : StoredTransaction)
    (a : Account) (hs : e.transactions t.tx = some s) (hc : s.client = t.client)
    (hd : s.disputed = true) (ha : e.accounts t.client = some a) :
    (processResolve e t).1 = .ok () ∧
    (processResolve e t).2.accounts t.client = some (a.resolve s.amount) ∧
    (processResolve e t).2.transactions t.tx = some { s with disputed := false } ∧
    (∀ c2, c2 ≠ t.client → (processResolve e t).2.accounts c2 = e.accounts c2) ∧
    (∀ k2, k2 ≠ t.tx → (processResolve e t).2.transactions k2 = e.transactions k2) := by
  unfold processResolve
  rw [hs]
  dsimp only
  rw [if_neg (by simp [hc]), if_neg (by simp [hd])]
  rw [ha]
  dsimp only
  refine ⟨rfl, ?_, ?_, ?_, ?_⟩
  · rw [updAccounts_self]
  · exact updTransactions_self _ _ _
  · exact fun c2 hc2 => updAccounts_other _ _ _ _ hc2
  · exact fun k2 hk2 => updTransactions_other _ _ _ _ hk2

lemma chargeback_ok_effect (e : Engine) (t : Transaction) (s : StoredTransaction)
    (a : Account) (hs : e.transactions t.tx = some s) (hc : s.client = t.client)
    (hd : s.disputed = true) (ha : e.accounts t.client = some a) :
    (processChargeback e t).1 = .ok () ∧
    (processChargeback e t).2.accounts t.client = some (a.chargeback s.amount) ∧
    (processChargeback e t).2.transactions t.tx = some s ∧
    (∀ c2, c2 ≠ t.client → (processChargeback e t).2.accounts c2 = e.accounts c2) ∧
    (∀ k2, k2 ≠ t.tx → (processChargeback e t).2.transactions k2 = e.transactions k2) := by
  unfold processChargeback
  rw [hs]
  dsimp only
  rw [if_neg (by simp [hc]), if_neg (by simp [hd])]
  rw [ha]
  dsimp only
  refine ⟨rfl, ?_, hs, ?_, ?_⟩
  · rw [updAccounts_self]
  · exact fun c2 hc2 => updAccounts_other _ _ _ _ hc2
  · exact fun k2 hk2 => rfl

/- ## Inversion: what must have held for these operations to succeed -/

lemma dispute_ok_inv (e : Engine) (t : Transaction)
    (hok : (processDispute e t).1 = .ok ()) :
    ∃ s a, e.transactions t.tx = some s ∧ s.client = t.client ∧
      s.disputed = false ∧ e.accounts t.client = some a := by
  unfold processDispute at hok
  cases hs : e.transactions t.tx with
  | none => rw [hs] at hok; cases hok
  | some stored =>
    rw [hs] at hok
    dsimp only at hok
    by_cases hnm : stored.client ≠ t.client
    · rw [if_pos hnm] at hok; cases hok
    · rw [if_neg hnm] at hok
      by_cases hd : stored.disputed = true
      · rw [if_pos hd] at hok; cases hok
      · rw [if_neg hd] at hok
        cases hacc : e.accounts t.client with
        | none => rw [hacc] at hok; cases hok
        | some account =>
          refine ⟨stored, account, rfl, not_not.mp hnm, ?_, rfl⟩
          simpa using hd

lemma resolve_ok_inv (e : Engine) (t : Transaction)
    (hok : (processResolve e t).1 = .ok ()) :
    ∃ s a, e.transactions t.tx = some s ∧ s.client = t.client ∧
      s.disputed = true ∧ e.accounts t.client = some a := by
  unfold processResolve at hok
  cases hs : e.transactions t.tx with
  | none => rw [hs] at hok; cases hok
  | some stored =>
    rw [hs] at hok
    dsimp only at hok
    by_cases hnm : stored.client ≠ t.client
    · rw [if_pos hnm] at hok; cases hok
    · rw [if_neg hnm] at hok
      by_cases hd : (!stored.disputed) = true
      · rw [if_pos hd] at hok; cases hok
      · rw [if_neg hd] at hok
        cases hacc : e.accounts t.client with
        | none => rw [hacc] at hok; cases hok
        | some account =>
          refine ⟨stored, account, rfl, not_not.mp hnm, ?_, rfl⟩
          simpa using hd

lemma chargeback_ok_inv (e : Engine) (t : Transaction)
    (hok : (processChargeback e t).1 = .ok ()) :
    ∃ s a, e.transactions t.tx = some s ∧ s.client = t.client ∧
      s.disputed = true ∧ e.accounts t.client = some a := by
  unfold processChargeback at hok
  cases hs : e.transactions t.tx with
  | none => rw [hs] at hok; cases hok
  | some stored =>
    rw [hs] at hok
    dsimp only at hok
    by_cases hnm : stored.client ≠ t.client
    · rw [if_pos hnm] at hok; cases hok
    · rw [if_neg hnm] at hok
      by_cases hd : (!stored.disputed) = true
      · rw [if_pos hd] at hok; cases hok
      · rw [if_neg hd] at hok
        cases hacc : e.accounts t.client with
        | none => rw [hacc] at hok; cases hok
        | some account =>
          refine ⟨stored, account, rfl, not_not.mp hnm, ?_, rfl⟩
          simpa using hd

/-- A dispute followed by a resolve for the same amount restores the account. -/
lemma resolve_dispute_cancel (a : Account) (x : Int) :
    (a.dispute x).resolve x = a := by
  cases a
  simp [Account.dispute, Account.resolve]

/-- Lazy creation via `entry` keeps every account that was already present. -/
lemma upd_getD_preserves (m : Nat → Option Account) (k c : Nat) (a : Account)
    (hex : m c = some a) :
    updAccounts m k ((m k).getD Account.new) c = some a := by
  by_cases hcc : c = k
  · subst hcc
    rw [updAccounts_self]
    simp [hex]
  · rw [updAccounts_other _ _ _ _ hcc]
    exact hex

/-- C1.  For every input sequence replayed on a fresh engine, every account
of the resulting state satisfies `total = available + held`; since every
prefix of a sequence is again a sequence, this holds after every applied
transaction, and the per-operation preservation is `accInv_run1`. -/
theorem c1_total_is_available_plus_held (ts : List Transaction) (c : Nat)
    (a : Account) (h : (runTxs Engine.new ts).accounts c = some a) :
    a.total = a.available + a.held :=
  accInv_runTxs ts Engine.new accInv_empty c a h

/-- Witness for C1: after a single deposit of 5 the account of client 1 is
`⟨5, 0, 5, false⟩` and indeed `5 = 5 + 0`. -/
theorem c1_total_is_available_plus_held_witness :
    (runTxs Engine.new [dep 1 1 5]).accounts 1 =
      some { available := 5, held := 0, total := 5, locked := false } ∧
    ({ available := 5, held := 0, total := 5, locked := false } : Account).total =
      ({ available := 5, held := 0, total := 5, locked := false } : Account).available +
      ({ available := 5, held := 0, total := 5, locked := false } : Account).held :=
  ⟨by decide, c1_total_is_available_plus_held [dep 1 1 5] 1 _ (by decide)⟩

/-- C5.  In any state whose stored transaction `t.tx` exists, belongs to the
stated client, is under dispute, and whose owning account exists, a
chargeback succeeds, moves `held` and `total` down by the stored amount,
leaves `available` unchanged, and locks the account. -/
theorem c5_chargeback_effect (e : Engine) (t : Transaction)
    (s : StoredTransaction) (a : Account) (htype : t.tx_type = .chargeback)
    (hs : e.transactions t.tx = some s) (hc : s.client = t.client)
    (hd : s.disputed = true) (ha : e.accounts t.client = some a) :
    (process e t).1 = .ok () ∧
    (process e t).2.accounts t.client = some
      { available := a.available, held := a.held - s.amount,
        total := a.total - s.amount, locked := true } := by
  have heff := chargeback_ok_effect e t s a hs hc hd ha
  unfold process
  rw [htype]
  dsimp only
  exact ⟨heff.1, by rw [heff.2.1]; rfl⟩

/-- Witness for C5: deposit 10 then dispute it; chargeback empties the
account and locks it. -/
theorem c5_chargeback_effect_witness :
    (runTxs Engine.new [dep 1 1 10, dsp 1 1]).transactions 1 =
      some { amount := 10, client := 1, disputed := true } ∧
    (runTxs Engine.new [dep 1 1 10, dsp 1 1]).accounts 1 =
      some { available := 0, held := 10, total := 10, locked := false } ∧
    (process (runTxs Engine.new [dep 1 1 10, dsp 1 1]) (cb 1 1)).1 = .ok () ∧
    (process (runTxs Engine.new [dep 1 1 10, dsp 1 1]) (cb 1 1)).2.accounts 1 =
      some { available := 0, held := 10 - 10, total := 10 - 10, locked := true } := by
  refine ⟨by decide, by decide, ?_⟩
  exact c5_chargeback_effect (runTxs Engine.new [dep 1 1 10, dsp 1 1]) (cb 1 1)
    { amount := 10, client := 1, disputed := true }
    { available := 0, held := 10, total := 10, locked := false }
    rfl (by decide) rfl rfl (by decide)

/-- C10.  The dispute protocol ignores the `locked` flag: when the stored
transaction exists, the client matches, the account exists and is locked,
a dispute (on an undisputed record), a resolve or a chargeback (on a
disputed record) still succeeds and mutates the balances. -/
theorem c10_dispute_protocol_ignores_lock (e : Engine) (t : Transaction)
    (s : StoredTransaction) (a : Account)
    (hs : e.transactions t.tx = some s) (hc : s.client = t.client)
    (ha : e.accounts t.client = some a) (hl : a.locked = true) :
    (t.tx_type = .dispute → s.disputed = false →
      (process e t).1 = .ok () ∧
      (process e t).2.accounts t.client = some (a.dispute s.amount)) ∧
    (t.tx_type = .resolve → s.disputed = true →
      (process e t).1 = .ok () ∧
      (process e t).2.accounts t.client = some (a.resolve s.amount)) ∧
    (t.tx_type = .chargeback → s.disputed = true →
      (process e t).1 = .ok () ∧
      (process e t).2.accounts t.client = some (a.chargeback s.amount)) := by
  refine ⟨fun htype hd => ?_, fun htype hd => ?_, fun htype hd => ?_⟩
  · have heff := dispute_ok_effect e t s a hs hc hd ha
    unfold process
    rw [htype]
    dsimp only
    exact ⟨heff.1, heff.2.1⟩
  · have heff := resolve_ok_effect e t s a hs hc hd ha
    unfold process
    rw [htype]
    dsimp only
    exact ⟨heff.1, heff.2.1⟩
  · have heff := chargeback_ok_effect e t s a hs hc hd ha
    unfold process
    rw [htype]
    dsimp only
    exact ⟨heff.1, heff.2.1⟩

/-- Witness for C10: after a chargeback the account of client 1 is locked,
yet a resolve of the still-disputed record succeeds and moves the balances. -/
theorem c10_dispute_protocol_ignores_lock_witness :
    (runTxs Engine.new [dep 1 1 10, dsp 1 1, cb 1 1]).transactions 1 =
      some { amount := 10, client := 1, disputed := true } ∧
    (runTxs Engine.new [dep 1 1 10, dsp 1 1, cb 1 1]).accounts 1 =
      some { available := 0, held := 0, total := 0, locked := true } ∧
    ((rsv 1 1).tx_type = .resolve →
      ({ amount := 10, client := 1, disputed := true } : StoredTransaction).disputed = true →
      (process (runTxs Engine.new [dep 1 1 10, dsp 1 1, cb 1 1]) (rsv 1 1)).1 = .ok () ∧
      (process (runTxs Engine.new [dep 1 1 10, dsp 1 1, cb 1 1]) (rsv 1 1)).2.accounts 1 =
        some (Account.resolve { available := 0, held := 0, total := 0, locked := true } 10)) := by
  refine ⟨by decide, by decide, ?_⟩
  exact (c10_dispute_protocol_ignores_lock
    (runTxs Engine.new [dep 1 1 10, dsp 1 1, cb 1 1]) (rsv 1 1)
    { amount := 10, client := 1, disputed := true }
    { available := 0, held := 0, total := 0, locked := true }
    (by decide) rfl (by decide) rfl).2.1

/-- C2 counterexample.  From the reachable state after `deposit(1,1,10)`,
the deposit `(2,1,5)` is rejected with `DuplicateTx`, yet the engine state
is not what it was before the call: `entry(..).or_insert_with` already
created a fresh account for client 2 before the duplicate-id check fired. -/
theorem c2_rejection_mutates_state_counterexample :
    (process (runTxs Engine.new [dep 1 1 10]) (dep 2 1 5)).1 =
      .error Err.duplicateTx ∧
    (runTxs Engine.new [dep 1 1 10]).accounts 2 = none ∧
    (process (runTxs Engine.new [dep 1 1 10]) (dep 2 1 5)).2.accounts 2 =
      some Account.new :=
  ⟨rfl, by decide, by decide⟩

/-- C2 amended.  In every reachable state a rejected transaction leaves the
stored-transactions map untouched and every other client's account
untouched; the transaction's own client either keeps its account unchanged
or (deposit/withdrawal on a fresh client) gains a brand-new zero, unlocked
account. -/
theorem c2_rejection_frame (e : Engine) (t : Transaction) (err : Err)
    (k c : Nat) (hre : Reachable e) (herr : (process e t).1 = .error err) :
    ((process e t).2.transactions k = e.transactions k) ∧
    (c ≠ t.client → (process e t).2.accounts c = e.accounts c) ∧
    ((process e t).2.accounts t.client = e.accounts t.client ∨
      (e.accounts t.client = none ∧
        (process e t).2.accounts t.client = some Account.new)) :=
  err_frame e t err (txInv_of_reachable e hre) herr k c

/-- Witness for C2: the empty engine is reachable, a withdrawal of 5 from it
fails with `InsufficientFunds`, and the frame property holds at keys 0/2. -/
theorem c2_rejection_frame_witness :
    Reachable Engine.new ∧
    (process Engine.new (wd 1 1 5)).1 = .error Err.insufficientFunds ∧
    (((process Engine.new (wd 1 1 5)).2.transactions 0 =
        Engine.new.transactions 0) ∧
      ((2 : Nat) ≠ (wd 1 1 5).client →
        (process Engine.new (wd 1 1 5)).2.accounts 2 = Engine.new.accounts 2) ∧
      ((process Engine.new (wd 1 1 5)).2.accounts (wd 1 1 5).client =
          Engine.new.accounts (wd 1 1 5).client ∨
        (Engine.new.accounts (wd 1 1 5).client = none ∧
          (process Engine.new (wd 1 1 5)).2.accounts (wd 1 1 5).client =
            some Account.new))) :=
  ⟨⟨[], rfl⟩, rfl,
    c2_rejection_frame Engine.new (wd 1 1 5) Err.insufficientFunds 0 2 ⟨[], rfl⟩ rfl⟩

/-- C3 counterexample.  Deposit 10, withdraw 10, then dispute the
withdrawal: all three transactions are accepted, yet client 1's available
balance ends at `-10 < 0`. -/
theorem c3_available_negative_counterexample :
    (process Engine.new (dep 1 1 10)).1 = .ok () ∧
    (process (runTxs Engine.new [dep 1 1 10]) (wd 1 2 10)).1 = .ok () ∧
    (process (runTxs Engine.new [dep 1 1 10, wd 1 2 10]) (dsp 1 2)).1 = .ok () ∧
    (runTxs Engine.new [dep 1 1 10, wd 1 2 10, dsp 1 2]).accounts 1 =
      some { available := -10, held := 10, total := 0, locked := false } ∧
    ¬ (0 : Int) ≤ -10 :=
  ⟨rfl, rfl, rfl, by decide, by decide⟩

/-- C3 amended.  Restricted to sequences of deposits and withdrawals whose
deposit amounts are nonnegative (no disputes), every account's available
balance is nonnegative after every replay from the fresh engine; prefixes
of such sequences are again such sequences, so this holds at all times. -/
theorem c3_available_nonneg_deposits_withdrawals (ts : List Transaction)
    (c : Nat) (a : Account)
    (hdw : ∀ t ∈ ts, t.tx_type = .deposit ∨ t.tx_type = .withdrawal)
    (hpos : ∀ t ∈ ts, ∀ x, t.amount = some x → t.tx_type = .deposit → 0 ≤ x)
    (h : (runTxs Engine.new ts).accounts c = some a) : 0 ≤ a.available :=
  availInv_runTxs ts Engine.new (fun c2 a2 h2 => by simp [Engine.new] at h2)
    hdw hpos c a h

/-- Witness for C3 amended: deposit 5 then withdraw 3 leaves client 1 with
available 2 ≥ 0. -/
theorem c3_available_nonneg_deposits_withdrawals_witness :
    (∀ t ∈ [dep 1 1 5, wd 1 2 3],
      t.tx_type = .deposit ∨ t.tx_type = .withdrawal) ∧
    (∀ t ∈ [dep 1 1 5, wd 1 2 3], ∀ x, t.amount = some x →
      t.tx_type = .deposit → 0 ≤ x) ∧
    (runTxs Engine.new [dep 1 1 5, wd 1 2 3]).accounts 1 =
      some { available := 2, held := 0, total := 2, locked := false } ∧
    (0 : Int) ≤ ({ available := 2, held := 0, total := 2, locked := false } : Account).available :=
  ⟨by decide, by decide, by decide,
    c3_available_nonneg_deposits_withdrawals [dep 1 1 5, wd 1 2 3] 1 _
      (by decide) (by decide) (by decide)⟩

/-- C4 counterexample.  After deposit → dispute → chargeback (all accepted),
the stored record for transaction 1 still carries `disputed = true`: the
source's `process_chargeback` never clears the flag. -/
theorem c4_chargeback_keeps_flag_counterexample :
    (process (runTxs Engine.new [dep 1 1 10, dsp 1 1]) (cb 1 1)).1 = .ok () ∧
    (runTxs Engine.new [dep 1 1 10, dsp 1 1, cb 1 1]).transactions 1 =
      some { amount := 10, client := 1, disputed := true } :=
  ⟨rfl, by decide⟩

/-- C4 amended.  On any successful operation referencing stored record
`t.tx`: a dispute turns the flag from false to true, a resolve from true to
false, and a chargeback requires it true and leaves it true (the flag stays
set, which is inert because the account is then locked). -/
theorem c4_disputed_flag_transitions (e : Engine) (t : Transaction)
    (s0 s1 : StoredTransaction) (hok : (process e t).1 = .ok ())
    (hs0 : e.transactions t.tx = some s0)
    (hs1 : (process e t).2.transactions t.tx = some s1) :
    (t.tx_type = .dispute → s0.disputed = false ∧ s1.disputed = true) ∧
    (t.tx_type = .resolve → s0.disputed = true ∧ s1.disputed = false) ∧
    (t.tx_type = .chargeback → s0.disputed = true ∧ s1.disputed = true) := by
  refine ⟨fun htype => ?_, fun htype => ?_, fun htype => ?_⟩
  · unfold process at hok hs1
    rw [htype] at hok hs1
    dsimp only at hok hs1
    obtain ⟨s, a, hs, hc, hd, ha⟩ := dispute_ok_inv e t hok
    have heff := dispute_ok_effect e t s a hs hc hd ha
    have heq0 : s0 = s := Option.some.inj (hs0.symm.trans hs)
    have heq1 : s1 = { s with disputed := true } :=
      Option.some.inj (hs1.symm.trans heff.2.2.1)
    subst heq0
    subst heq1
    exact ⟨hd, rfl⟩
  · unfold process at hok hs1
    rw [htype] at hok hs1
    dsimp only at hok hs1
    obtain ⟨s, a, hs, hc, hd, ha⟩ := resolve_ok_inv e t hok
    have heff := resolve_ok_effect e t s a hs hc hd ha
    have heq0 : s0 = s := Option.some.inj (hs0.symm.trans hs)
    have heq1 : s1 = { s with disputed := false } :=
      Option.some.inj (hs1.symm.trans heff.2.2.1)
    subst heq0
    subst heq1
    exact ⟨hd, rfl⟩
  · unfold process at hok hs1
    rw [htype] at hok hs1
    dsimp only at hok hs1
    obtain ⟨s, a, hs, hc, hd, ha⟩ := chargeback_ok_inv e t hok
    have heff := chargeback_ok_effect e t s a hs hc hd ha
    have heq0 : s0 = s := Option.some.inj (hs0.symm.trans hs)
    have heq1 : s1 = s := Option.some.inj (hs1.symm.trans heff.2.2.1)
    subst heq0
    subst heq1
    exact ⟨hd, hd⟩

/-- Witness for C4 amended: resolving the disputed deposit of client 1
turns the stored flag from true to false. -/
theorem c4_disputed_flag_transitions_witness :
    (process (runTxs Engine.new [dep 1 1 10, dsp 1 1]) (rsv 1 1)).1 = .ok () ∧
    (runTxs Engine.new [dep 1 1 10, dsp 1 1]).transactions 1 =
      some { amount := 10, client := 1, disputed := true } ∧
    (process (runTxs Engine.new [dep 1 1 10, dsp 1 1]) (rsv 1 1)).2.transactions 1 =
      some { amount := 10, client := 1, disputed := false } ∧
    (((rsv 1 1).tx_type = .dispute →
        ({ amount := 10, client := 1, disputed := true } : StoredTransaction).disputed = false ∧
        ({ amount := 10, client := 1, disputed := false } : StoredTransaction).disputed = true) ∧
      ((rsv 1 1).tx_type = .resolve →
        ({ amount := 10, client := 1, disputed := true } : StoredTransaction).disputed = true ∧
        ({ amount := 10, client := 1, disputed := false } : StoredTransaction).disputed = false) ∧
      ((rsv 1 1).tx_type = .chargeback →
        ({ amount := 10, client := 1, disputed := true } : StoredTransaction).disputed = true ∧
        ({ amount := 10, client := 1, disputed := false } : StoredTransaction).disputed = true)) :=
  ⟨rfl, by decide, by decide,
    c4_disputed_flag_transitions (runTxs Engine.new [dep 1 1 10, dsp 1 1]) (rsv 1 1)
      { amount := 10, client := 1, disputed := true }
      { amount := 10, client := 1, disputed := false }
      rfl (by decide) (by decide)⟩

/-- C6.  Once a client's account is locked, it stays locked under every
further input sequence, and any deposit or withdrawal addressed to that
client in any such later state is rejected. -/
theorem c6_locked_is_permanent (e : Engine) (c : Nat) (ts : List Transaction)
    (t : Transaction) (hl : lockedAt e c = true) (hc : t.client = c)
    (hdw : t.tx_type = .deposit ∨ t.tx_type = .withdrawal) :
    lockedAt (runTxs e ts) c = true ∧
    isErr (process (runTxs e ts) t).1 = true := by
  have hlock := locked_runTxs ts e c hl
  refine ⟨hlock, ?_⟩
  subst hc
  unfold lockedAt at hlock
  cases hac : (runTxs e ts).accounts t.client with
  | none => rw [hac] at hlock; cases hlock
  | some a =>
    rw [hac] at hlock
    exact locked_rejects _ t a hac hlock hdw

/-- Witness for C6: client 1 is locked after a chargeback; after one more
unrelated deposit the account is still locked and a new deposit by
client 1 is rejected. -/
theorem c6_locked_is_permanent_witness :
    lockedAt (runTxs Engine.new [dep 1 1 10, dsp 1 1, cb 1 1]) 1 = true ∧
    (dep 1 9 1).client = 1 ∧
    ((dep 1 9 1).tx_type = .deposit ∨ (dep 1 9 1).tx_type = .withdrawal) ∧
    (lockedAt (runTxs (runTxs Engine.new [dep 1 1 10, dsp 1 1, cb 1 1]) [dep 2 7 3]) 1 = true ∧
      isErr (process (runTxs (runTxs Engine.new [dep 1 1 10, dsp 1 1, cb 1 1]) [dep 2 7 3])
        (dep 1 9 1)).1 = true) :=
  ⟨by decide, rfl, Or.inl rfl,
    c6_locked_is_permanent (runTxs Engine.new [dep 1 1 10, dsp 1 1, cb 1 1]) 1
      [dep 2 7 3] (dep 1 9 1) (by decide) rfl (Or.inl rfl)⟩

/-- C7.  In every state, a deposit or withdrawal whose id is already a
stored monetary transaction is rejected, and every account that existed
before the call is unchanged afterwards. -/
theorem c7_duplicate_id_rejected (e : Engine) (t : Transaction)
    (s : StoredTransaction) (c : Nat) (a : Account)
    (hdw : t.tx_type = .deposit ∨ t.tx_type = .withdrawal)
    (hs : e.transactions t.tx = some s) (hex : e.accounts c = some a) :
    isErr (process e t).1 = true ∧ (process e t).2.accounts c = some a := by
  unfold process
  rcases hdw with htype | htype <;> rw [htype] <;> dsimp only
  · unfold processDeposit
    cases ht : t.amount with
    | none => exact ⟨rfl, hex⟩
    | some x =>
      dsimp only
      by_cases hl : ((e.accounts t.client).getD Account.new).locked = true
      · rw [if_pos hl]
        exact ⟨rfl, upd_getD_preserves e.accounts t.client c a hex⟩
      · rw [if_neg hl, if_pos (show (e.transactions t.tx).isSome = true by simp [hs])]
        exact ⟨rfl, upd_getD_preserves e.accounts t.client c a hex⟩
  · unfold processWithdrawal
    cases ht : t.amount with
    | none => exact ⟨rfl, hex⟩
    | some x =>
      dsimp only
      by_cases hl : ((e.accounts t.client).getD Account.new).locked = true
      · rw [if_pos hl]
        exact ⟨rfl, upd_getD_preserves e.accounts t.client c a hex⟩
      · rw [if_neg hl, if_pos (show (e.transactions t.tx).isSome = true by simp [hs])]
        exact ⟨rfl, upd_getD_preserves e.accounts t.client c a hex⟩

/-- Witness for C7: reusing id 1 for a deposit by client 2 is rejected and
client 1's account is exactly as before. -/
theorem c7_duplicate_id_rejected_witness :
    ((dep 2 1 5).tx_type = .deposit ∨ (dep 2 1 5).tx_type = .withdrawal) ∧
    (runTxs Engine.new [dep 1 1 10]).transactions 1 =
      some { amount := 10, client := 1, disputed := false } ∧
    (runTxs Engine.new [dep 1 1 10]).accounts 1 =
      some { available := 10, held := 0, total := 10, locked := false } ∧
    (isErr (process (runTxs Engine.new [dep 1 1 10]) (dep 2 1 5)).1 = true ∧
      (process (runTxs Engine.new [dep 1 1 10]) (dep 2 1 5)).2.accounts 1 =
        some { available := 10, held := 0, total := 10, locked := false }) :=
  ⟨Or.inl rfl, by decide, by decide,
    c7_duplicate_id_rejected (runTxs Engine.new [dep 1 1 10]) (dep 2 1 5)
      { amount := 10, client := 1, disputed := false } 1
      { available := 10, held := 0, total := 10, locked := false }
      (Or.inl rfl) (by decide) (by decide)⟩

/-- C8.  Whenever a dispute succeeds, the resolve of the same transaction
by the same client applied immediately afterwards succeeds as well, and
the owning client's account (available, held, total, locked) is restored
to exactly what it was before the dispute. -/
theorem c8_dispute_resolve_roundtrip (e : Engine) (t : Transaction)
    (htype : t.tx_type = .dispute) (hok : (process e t).1 = .ok ()) :
    (process (process e t).2 { t with tx_type := .resolve }).1 = .ok () ∧
    (process (process e t).2 { t with tx_type := .resolve }).2.accounts t.client =
      e.accounts t.client := by
  unfold process at hok ⊢
  rw [htype] at hok ⊢
  dsimp only at hok ⊢
  obtain ⟨s, a, hs, hc, hd, ha⟩ := dispute_ok_inv e t hok
  have heff := dispute_ok_effect e t s a hs hc hd ha
  have heff2 := resolve_ok_effect (processDispute e t).2 { t with tx_type := .resolve }
    { s with disputed := true } (a.dispute s.amount) heff.2.2.1 hc rfl heff.2.1
  refine ⟨heff2.1, ?_⟩
  have h2 : (processResolve (processDispute e t).2 { t with tx_type := .resolve }).2.accounts
      t.client = some ((a.dispute s.amount).resolve s.amount) := heff2.2.1
  rw [h2, resolve_dispute_cancel, ha]

/-- Witness for C8: disputing the deposit of 10 then resolving it restores
client 1's account. -/
theorem c8_dispute_resolve_roundtrip_witness :
    (process (runTxs Engine.new [dep 1 1 10]) (dsp 1 1)).1 = .ok () ∧
    ((process (process (runTxs Engine.new [dep 1 1 10]) (dsp 1 1)).2
        { dsp 1 1 with tx_type := .resolve }).1 = .ok () ∧
      (process (process (runTxs Engine.new [dep 1 1 10]) (dsp 1 1)).2
        { dsp 1 1 with tx_type := .resolve }).2.accounts (dsp 1 1).client =
      (runTxs Engine.new [dep 1 1 10]).accounts (dsp 1 1).client) :=
  ⟨rfl, c8_dispute_resolve_roundtrip (runTxs Engine.new [dep 1 1 10]) (dsp 1 1) rfl rfl⟩

/-- C9.  In every reachable state, a dispute is rejected exactly when the
referenced id is unknown, owned by a different client, or already under
dispute; and the rejection is never the `Account not found` error, because
every stored transaction's owner has an account in reachable states. -/
theorem c9_dispute_rejection_condition (e : Engine) (t : Transaction)
    (hre : Reachable e) (htype : t.tx_type = .dispute) :
    isErr (process e t).1 = disputeRejects e t ∧
    (process e t).1 ≠ .error Err.accountNotFound := by
  have hTx := txInv_of_reachable e hre
  unfold process
  rw [htype]
  dsimp only
  unfold processDispute disputeRejects
  cases hs : e.transactions t.tx with
  | none => exact ⟨rfl, by simp⟩
  | some stored =>
    dsimp only
    by_cases hnm : stored.client ≠ t.client
    · rw [if_pos hnm]
      exact ⟨by simp [isErr, hnm], by simp⟩
    · rw [if_neg hnm]
      have hcl : stored.client = t.client := not_not.mp hnm
      by_cases hd : stored.disputed = true
      · rw [if_pos hd]
        exact ⟨by simp [isErr, hd], by simp⟩
      · rw [if_neg hd]
        cases hacc : e.accounts t.client with
        | none =>
          have hsome := hTx t.tx stored hs
          rw [hcl, hacc] at hsome
          cases hsome
        | some account =>
          have hdf : stored.disputed = false := by simpa using hd
          exact ⟨by simp [isErr, hcl, hdf], by simp⟩

/-- Witness for C9: in the reachable state after `deposit(1,1,10)`, a
dispute by the wrong client 2 is rejected, matching the rejection
condition, and not with the account-not-found error. -/
theorem c9_dispute_rejection_condition_witness :
    Reachable (runTxs Engine.new [dep 1 1 10]) ∧
    (dsp 2 1).tx_type = .dispute ∧
    (isErr (process (runTxs Engine.new [dep 1 1 10]) (dsp 2 1)).1 =
        disputeRejects (runTxs Engine.new [dep 1 1 10]) (dsp 2 1) ∧
      (process (runTxs Engine.new [dep 1 1 10]) (dsp 2 1)).1 ≠
        .error Err.accountNotFound) :=
  ⟨⟨[dep 1 1 10], rfl⟩, rfl,
    c9_dispute_rejection_condition (runTxs Engine.new [dep 1 1 10]) (dsp 2 1)
      ⟨[dep 1 1 10], rfl⟩ rfl⟩
